import Mathlib

/-!
Shallow embedding of the transaction funding and input-filling core of the
go-sdk repository (file `transaction/txinput.go`), together with theorems
settling the specification claims about it.

Machine integers (`uint64`, `uint32`) are embedded as `Nat` with explicit
`% 2^64` reduction where the Go code performs wrapping arithmetic.
Fallible Go functions are embedded as `Except`-valued (or pair-valued, when
the Go receiver is mutated before the failure) Lean functions.  A Go runtime
panic is a distinct outcome from a returned `error`, so the failure type
distinguishes them.

External collaborators of the core (the fee estimator, the UTXO source and
the unlocking strategy) are parameters, exactly as they are interfaces /
function values in the Go code.  Repository code that the core calls but
that is not part of the given source file (`estimateDeficit`,
`PreviousTxIDAdd`, `crypto.Sha256d`, `util.ReverseBytes`, the
`sighash.AllForkID` constant, `DefaultSequenceNumber`, hex decoding of
scripts and ids) is modelled from the specification; each such definition
says so in its doc comment.
-/

namespace GoSdk

/-- Modulus of Go's `uint64` arithmetic. -/
def M64 : Nat := 2 ^ 64

/-- Script bytes (`script.Script` is a byte slice in the repository). -/
abbrev Script := List Nat

/-- Modelled from the spec: `DefaultSequenceNumber`, the default finalized
sequence number `0xFFFFFFFF` (repository constant, not in the given source). -/
def DefaultSequenceNumber : Nat := 0xFFFFFFFF

/-- Modelled from the spec: `sighash.AllForkID`, the "sign all inputs and
outputs, pinned to this chain fork" policy `SIGHASH_ALL | SIGHASH_FORKID`
(= `0x41`) from the external sighash enumeration. -/
def AllForkID : Nat := 0x41

/-- Transaction input (`bt.Input`).  `PreviousTxID` is the private byte-slice
field set through `PreviousTxIDAdd`; `PreviousTxScript` and
`UnlockingScript` are nilable script pointers, hence `Option`. -/
structure Input where
  PreviousTxID : List Nat
  PreviousTxOutIndex : Nat
  PreviousTxSatoshis : Nat
  PreviousTxScript : Option Script
  UnlockingScript : Option Script
  SequenceNumber : Nat
deriving DecidableEq

/-- Transaction output (`bt.Output`): only the fields the claims touch. -/
structure Output where
  Satoshis : Nat
  LockingScript : Option Script
deriving DecidableEq

/-- Transaction (`bt.Tx`): the ordered input and output sequences, which are
the only fields the given source reads or writes. -/
structure Transaction where
  Inputs : List Input
  Outputs : List Output
deriving DecidableEq

/-- Spendable previous output description (`bt.UTXO`). -/
structure UTXO where
  TxID : List Nat
  Vout : Nat
  Satoshis : Nat
  LockingScript : Option Script
deriving DecidableEq

/-- Error values returned by the embedded functions.  `noUTXO` is the
`bt.ErrNoUTXO` exhaustion sentinel, `insufficientFunds` is
`bt.ErrInsufficientFunds`, `noUnlocker` is `bt.ErrNoUnlocker`,
`invalidHex` carries the text that failed to decode, and `external`
stands for an arbitrary error produced by an external collaborator. -/
inductive GoError
  | noUTXO
  | insufficientFunds
  | noUnlocker
  | invalidHex (s : String)
  | external (code : Nat)
deriving DecidableEq

/-- Outcome of a Go call that can either return an `error` or panic at
runtime; a panic is a distinct, non-`error` failure mode. -/
inductive Failure
  | err (e : GoError)
  | panic (msg : String)
deriving DecidableEq

/-- TotalInputSatoshis (`txinput.go` lines 27-32): sums every input's
`PreviousTxSatoshis` in `uint64` arithmetic, i.e. wrapping modulo `2^64`. -/
def TotalInputSatoshis (tx : Transaction) : Nat :=
  tx.Inputs.foldl (fun total i => (total + i.PreviousTxSatoshis) % M64) 0

/-- Modelled from the spec: `TotalOutputSatoshis` (repository method, not in
the given source) — the sum of the output satoshi amounts, in `uint64`
arithmetic like the input total. -/
def TotalOutputSatoshis (tx : Transaction) : Nat :=
  tx.Outputs.foldl (fun total o => (total + o.Satoshis) % M64) 0

/-- addInput (`txinput.go` lines 34-36): append one input. -/
def addInput (tx : Transaction) (input : Input) : Transaction :=
  { tx with Inputs := tx.Inputs ++ [input] }

/-- InputCount (`txinput.go` lines 168-170). -/
def InputCount (tx : Transaction) : Nat :=
  tx.Inputs.length

/-- Modelled from the spec: `Input.PreviousTxIDAdd` (repository method, not in
the given source) stores the previous transaction id bytes on the input;
the spec places no constraint on ingestion of already-typed UTXO records,
so it always succeeds. -/
def PreviousTxIDAdd (i : Input) (txID : List Nat) : Except GoError Input :=
  .ok { i with PreviousTxID := txID }

/-- FromUTXOs (`txinput.go` lines 88-104): convert each UTXO into an input
carrying the default finalized sequence number and append it.  The Go
receiver is mutated in place and an error aborts the remaining UTXOs, so
the embedding returns the transaction state alongside the optional error. -/
def FromUTXOs (tx : Transaction) : List UTXO → Option GoError × Transaction
  | [] => (none, tx)
  | utxo :: rest =>
    let i : Input :=
      { PreviousTxID := []
        PreviousTxOutIndex := utxo.Vout
        PreviousTxSatoshis := utxo.Satoshis
        PreviousTxScript := utxo.LockingScript
        UnlockingScript := none
        SequenceNumber := DefaultSequenceNumber }
    match PreviousTxIDAdd i utxo.TxID with
    | .error e => (some e, tx)
    | .ok i' => FromUTXOs (addInput tx i') rest

/-- Hex digit value, accepting both cases, as Go's `encoding/hex` does. -/
def hexDigit (c : Char) : Option Nat :=
  if '0' ≤ c ∧ c ≤ '9' then some (c.toNat - '0'.toNat)
  else if 'a' ≤ c ∧ c ≤ 'f' then some (c.toNat - 'a'.toNat + 10)
  else if 'A' ≤ c ∧ c ≤ 'F' then some (c.toNat - 'A'.toNat + 10)
  else none

/-- Modelled from the spec: Go's `hex.DecodeString` on a character list —
fails on an odd-length string or any non-hex character, otherwise yields
the decoded bytes. -/
def hexDecodeChars : List Char → Option (List Nat)
  | [] => some []
  | [_] => none
  | c1 :: c2 :: rest => do
    let hi ← hexDigit c1
    let lo ← hexDigit c2
    let tail ← hexDecodeChars rest
    pure ((16 * hi + lo) :: tail)

/-- Modelled from the spec: Go's `hex.DecodeString`. -/
def hexDecode (s : String) : Option (List Nat) :=
  hexDecodeChars s.data

/-- Modelled from the spec: `script.NewFromHexString` (external script
package) — decode a hex string into script bytes. -/
def NewFromHexString (s : String) : Option Script :=
  hexDecode s

/-- From (`txinput.go` lines 67-83): decode the locking script hex, then the
previous transaction id hex, then add the single resulting UTXO.  Decoding
failures happen before any mutation, so the unchanged transaction is
returned alongside the error. -/
def From (tx : Transaction) (prevTxID : String) (vout : Nat)
    (prevTxLockingScript : String) (satoshis : Nat) :
    Option GoError × Transaction :=
  match NewFromHexString prevTxLockingScript with
  | none => (some (GoError.invalidHex prevTxLockingScript), tx)
  | some pts =>
    match hexDecode prevTxID with
    | none => (some (GoError.invalidHex prevTxID), tx)
    | some pti =>
      FromUTXOs tx
        [{ TxID := pti, Vout := vout, LockingScript := some pts, Satoshis := satoshis }]

/-- InsertInputUnlockingScript (`txinput.go` lines 201-208): the Go guard
`tx.Inputs[index] != nil` first indexes the slice, which panics at runtime
when `index` is out of range; inputs constructed by this package are never
nil pointers, so for an in-range index the guard is always true and the
`"no input at index %d"` error return on its nil branch is unreachable. -/
def InsertInputUnlockingScript (tx : Transaction) (index : Nat) (s : Script) :
    Except Failure Transaction :=
  if h : index < tx.Inputs.length then
    .ok { tx with
          Inputs := tx.Inputs.set index
            { tx.Inputs.get ⟨index, h⟩ with UnlockingScript := some s } }
  else
    .error (.panic ("runtime error: index out of range"))

/-- Fee estimation contract (spec §6): a function of the current transaction
shape yielding the estimated fee in satoshis, or a failure.  The
repository's `FeeQuote` plus `estimateExpectedFeesPaid` instantiate it. -/
abbrev FeeEstimator := Transaction → Except GoError Nat

/-- UTXO source contract (`UTXOGetterFunc`): the first argument is the index
of the call (standing for the source's own evolving state, which in Go
lives in the closure), the second is the requested deficit. -/
abbrev UTXOSource := Nat → Nat → Except GoError (List UTXO)

/-- Modelled from the spec: `estimateDeficit` (repository method, not in the
given source) — deficit = (sum of output satoshis + estimated fee) − (sum of
already-added input satoshis), clamped to zero when the inputs already cover
the requirement; a fee-estimation failure propagates. -/
def estimateDeficit (fq : FeeEstimator) (tx : Transaction) : Except GoError Nat :=
  match fq tx with
  | .error e => .error e
  | .ok fee =>
    if TotalOutputSatoshis tx + fee < TotalInputSatoshis tx then .ok 0
    else .ok (TotalOutputSatoshis tx + fee - TotalInputSatoshis tx)

/-- Result of a `Fund` run. `diverge` is the fuel-exhaustion marker for the
unbounded Go loop (spec §9 leaves non-termination unresolved). -/
inductive FundResult
  | ok
  | fail (e : GoError)
  | diverge
deriving DecidableEq

/-- Funding loop body of Fund (`txinput.go` lines 141-162): while the deficit
is nonzero, pull from the source; on the `ErrNoUTXO` sentinel break to the
post-loop insufficiency check, on any other source error return it; append
the returned UTXOs and recompute the deficit.  Returns the result, the
transaction state (the Go receiver is mutated in place) and the number of
source invocations performed. -/
def fundLoop (fq : FeeEstimator) (source : UTXOSource) :
    Nat → Transaction → Nat → Nat → FundResult × Transaction × Nat
  | 0, tx, deficit, calls =>
    if deficit = 0 then (.ok, tx, calls) else (.diverge, tx, calls)
  | fuel' + 1, tx, deficit, calls =>
    if deficit = 0 then (.ok, tx, calls)
    else
        match source calls deficit with
        | .error e =>
          if e = GoError.noUTXO then
            -- Go: `break`, then the post-loop `if deficit != 0` check
            (if deficit = 0 then .ok else .fail GoError.insufficientFunds, tx, calls + 1)
          else
            (.fail e, tx, calls + 1)
        | .ok utxos =>
          match FromUTXOs tx utxos with
          | (some e, tx') => (.fail e, tx', calls + 1)
          | (none, tx') =>
            match estimateDeficit fq tx' with
            | .error e => (.fail e, tx', calls + 1)
            | .ok deficit' => fundLoop fq source fuel' tx' deficit' (calls + 1)

/-- Fund (`txinput.go` lines 136-165): compute the initial deficit, then run
the funding loop. -/
def Fund (fuel : Nat) (fq : FeeEstimator) (source : UTXOSource)
    (tx : Transaction) : FundResult × Transaction × Nat :=
  match estimateDeficit fq tx with
  | .error e => (.fail e, tx, 0)
  | .ok deficit => fundLoop fq source fuel tx deficit 0

/-- Unlocking parameters (`UnlockerParams`). -/
structure UnlockerParams where
  InputIdx : Nat
  SigHashFlags : Nat
deriving DecidableEq

/-- Unlocking capability contract (spec §6): a function of the transaction
and the signing parameters yielding the unlocking proof bytes, or a
failure.  The capability itself is pure in the embedding. -/
abbrev Unlocker := Transaction → UnlockerParams → Except GoError Script

/-- Capability resolution contract (`UnlockerGetter`): a function of the
input's previous locking script yielding an unlocking capability, or a
failure. -/
abbrev UnlockerGetter := Option Script → Except GoError Unlocker

/-- FillInput (`txinput.go` lines 215-230): fail with `ErrNoUnlocker` when no
capability is supplied (a nil interface in Go, hence the `Option`); default
a zero sighash flag set to `AllForkID`; obtain the unlocking script from
the capability and insert it at the parameter index. -/
def FillInput (tx : Transaction) (unlocker : Option Unlocker)
    (params : UnlockerParams) : Except Failure Transaction :=
  match unlocker with
  | none => .error (.err GoError.noUnlocker)
  | some u =>
    let params' :=
      if params.SigHashFlags = 0 then { params with SigHashFlags := AllForkID }
      else params
    match u tx params' with
    | .error e => .error (.err e)
    | .ok s => InsertInputUnlockingScript tx params'.InputIdx s

/-- Loop body of FillAllInputs (`txinput.go` lines 238-254): walk the inputs
in ascending index order; for each, resolve a capability from its previous
locking script and fill the input with `AllForkID`; the first failure stops
the walk.  Besides the Go error outcome and the mutated transaction, the
embedding returns the trace of previous locking scripts passed to the
capability resolver, to state in which order resolution was requested. -/
def FillAllInputsAux (ug : UnlockerGetter) :
    Transaction → Nat → List Input → Option Failure × Transaction × List (Option Script)
  | tx, _, [] => (none, tx, [])
  | tx, i, input :: rest =>
    match ug input.PreviousTxScript with
    | .error e => (some (Failure.err e), tx, [input.PreviousTxScript])
    | .ok u =>
      match FillInput tx (some u) ⟨i, AllForkID⟩ with
      | .error f => (some f, tx, [input.PreviousTxScript])
      | .ok tx' =>
        let q := FillAllInputsAux ug tx' (i + 1) rest
        (q.1, q.2.1, input.PreviousTxScript :: q.2.2)

/-- FillAllInputs (`txinput.go` lines 238-254): run the walk from index 0
over the snapshot of the input list. -/
def FillAllInputs (ug : UnlockerGetter) (tx : Transaction) :
    Option Failure × Transaction × List (Option Script) :=
  FillAllInputsAux ug tx 0 tx.Inputs

/-- Placeholder input used as the default argument of `List.getD` in index
statements; any in-range `getD` is independent of it. -/
def dummyInput : Input :=
  { PreviousTxID := []
    PreviousTxOutIndex := 0
    PreviousTxSatoshis := 0
    PreviousTxScript := none
    UnlockingScript := none
    SequenceNumber := 0 }

/-- Modulus of 32-bit word arithmetic inside SHA-256. -/
def M32 : Nat := 2 ^ 32

/-- Addition of 32-bit words. -/
def add32 (a b : Nat) : Nat := (a + b) % M32

/-- Right rotation of a 32-bit word. -/
def rotr32 (n x : Nat) : Nat := ((x >>> n) ||| (x <<< (32 - n))) % M32

/-- SHA-256 big sigma 0 (rotations by 2, 13, 22). -/
def bigSigma0 (x : Nat) : Nat := rotr32 2 x ^^^ rotr32 13 x ^^^ rotr32 22 x

/-- SHA-256 big sigma 1 (rotations by 6, 11, 25). -/
def bigSigma1 (x : Nat) : Nat := rotr32 6 x ^^^ rotr32 11 x ^^^ rotr32 25 x

/-- SHA-256 small sigma 0 (rotations by 7, 18, shift by 3). -/
def smallSigma0 (x : Nat) : Nat := rotr32 7 x ^^^ rotr32 18 x ^^^ (x >>> 3)

/-- SHA-256 small sigma 1 (rotations by 17, 19, shift by 10). -/
def smallSigma1 (x : Nat) : Nat := rotr32 17 x ^^^ rotr32 19 x ^^^ (x >>> 10)

/-- SHA-256 choice function (complement taken by xor with the 32-bit mask). -/
def sha256Ch (x y z : Nat) : Nat := (x &&& y) ^^^ ((x ^^^ 4294967295) &&& z)

/-- SHA-256 majority function. -/
def sha256Maj (x y z : Nat) : Nat := (x &&& y) ^^^ (x &&& z) ^^^ (y &&& z)

/-- SHA-256 round constants (FIPS 180-4, written in decimal). -/
def sha256K : List Nat :=
  [1116352408, 1899447441, 3049323471, 3921009573,
   961987163, 1508970993, 2453635748, 2870763221,
   3624381080, 310598401, 607225278, 1426881987,
   1925078388, 2162078206, 2614888103, 3248222580,
   3835390401, 4022224774, 264347078, 604807628,
   770255983, 1249150122, 1555081692, 1996064986,
   2554220882, 2821834349, 2952996808, 3210313671,
   3336571891, 3584528711, 113926993, 338241895,
   666307205, 773529912, 1294757372, 1396182291,
   1695183700, 1986661051, 2177026350, 2456956037,
   2730485921, 2820302411, 3259730800, 3345764771,
   3516065817, 3600352804, 4094571909, 275423344,
   430227734, 506948616, 659060556, 883997877,
   958139571, 1322822218, 1537002063, 1747873779,
   1955562222, 2024104815, 2227730452, 2361852424,
   2428436474, 2756734187, 3204031479, 3329325298]

/-- SHA-256 initial hash state (FIPS 180-4, written in decimal). -/
def sha256InitH : List Nat :=
  [1779033703, 3144134277, 1013904242, 2773480762,
   1359893119, 2600822924, 528734635, 1541459225]

/-- Group bytes into 32-bit words, big-endian. -/
def bytesToWords : List Nat → List Nat
  | b0 :: b1 :: b2 :: b3 :: rest =>
    (((b0 * 256 + b1) * 256 + b2) * 256 + b3) :: bytesToWords rest
  | _ => []

/-- Extend the 16 block words to the 64-entry message schedule. -/
def sha256Schedule (w16 : List Nat) : List Nat :=
  (List.range 48).foldl
    (fun w _ =>
      let n := w.length
      let x := add32 (add32 (smallSigma1 (w.getD (n - 2) 0)) (w.getD (n - 7) 0))
                     (add32 (smallSigma0 (w.getD (n - 15) 0)) (w.getD (n - 16) 0))
      w ++ [x])
    w16

/-- Run the 64 SHA-256 rounds on one schedule and add the result into the
incoming state. -/
def sha256Compress (h : List Nat) (w : List Nat) : List Nat :=
  let st := (List.range 64).foldl
    (fun st i =>
      match st with
      | [a, b, c, d, e, f, g, hh] =>
        let t1 := add32 hh (add32 (bigSigma1 e)
                   (add32 (sha256Ch e f g) (add32 (sha256K.getD i 0) (w.getD i 0))))
        let t2 := add32 (bigSigma0 a) (sha256Maj a b c)
        [add32 t1 t2, a, b, c, add32 d t1, e, f, g]
      | st => st)
    h
  List.zipWith add32 h st

/-- Big-endian 8-byte encoding (for the SHA-256 length field). -/
def u64be (n : Nat) : List Nat :=
  [n / 2 ^ 56 % 256, n / 2 ^ 48 % 256, n / 2 ^ 40 % 256, n / 2 ^ 32 % 256,
   n / 2 ^ 24 % 256, n / 2 ^ 16 % 256, n / 2 ^ 8 % 256, n % 256]

/-- SHA-256 message padding: append `0x80`, zero bytes up to 56 mod 64, then
the bit length as 8 bytes big-endian. -/
def sha256Pad (msg : List Nat) : List Nat :=
  let len := msg.length
  let padLen := (64 + 56 - ((len + 1) % 64)) % 64
  msg ++ [0x80] ++ List.replicate padLen 0 ++ u64be (len * 8)

/-- Split a byte list into 64-byte chunks (fuel-driven on the length). -/
def chunks64Go : Nat → List Nat → List (List Nat)
  | 0, _ => []
  | _, [] => []
  | fuel + 1, l => l.take 64 :: chunks64Go fuel (l.drop 64)

/-- Split a byte list into 64-byte chunks. -/
def chunks64 (l : List Nat) : List (List Nat) :=
  chunks64Go l.length l

/-- Serialize a 32-bit word to 4 bytes big-endian. -/
def wordToBytes (w : Nat) : List Nat :=
  [w / 2 ^ 24 % 256, w / 2 ^ 16 % 256, w / 2 ^ 8 % 256, w % 256]

/-- Modelled from the spec: SHA-256 over a byte list (external crypto
collaborator of the repository). -/
def sha256 (msg : List Nat) : List Nat :=
  let blocks := chunks64 (sha256Pad msg)
  let hFinal := blocks.foldl
    (fun h b => sha256Compress h (sha256Schedule (bytesToWords b))) sha256InitH
  (hFinal.map wordToBytes).flatten

/-- Modelled from the spec: `crypto.Sha256d`, the double-SHA256 primitive. -/
def Sha256d (msg : List Nat) : List Nat :=
  sha256 (sha256 msg)

/-- Serialize a 32-bit value to 4 bytes little-endian, as Go's
`binary.LittleEndian.PutUint32`. -/
def le32 (n : Nat) : List Nat :=
  [n % 256, n / 2 ^ 8 % 256, n / 2 ^ 16 % 256, n / 2 ^ 24 % 256]

/-- PreviousOutHash (`txinput.go` lines 173-184): double-SHA256 of the
concatenation, per input in order, of the byte-reversed previous
transaction id (`util.ReverseBytes`, modelled from the spec as list
reversal) followed by the little-endian 4-byte output index. -/
def PreviousOutHash (tx : Transaction) : List Nat :=
  let buf := tx.Inputs.foldl
    (fun buf i => (buf ++ i.PreviousTxID.reverse) ++ le32 i.PreviousTxOutIndex) []
  Sha256d buf

/-- SequenceHash (`txinput.go` lines 187-197): double-SHA256 of the
concatenation, per input in order, of the little-endian 4-byte sequence
number. -/
def SequenceHash (tx : Transaction) : List Nat :=
  let buf := tx.Inputs.foldl (fun buf i => buf ++ le32 i.SequenceNumber) []
  Sha256d buf

/-! Helper lemmas. -/

/-- A left fold that reduces modulo `M64` at every step computes the plain
sum modulo `M64`. -/
theorem foldl_mod_add {α : Type} (f : α → Nat) :
    ∀ (l : List α) (a : Nat), a < M64 →
      l.foldl (fun t x => (t + f x) % M64) a = (a + (l.map f).sum) % M64 := by
  intro l
  induction l with
  | nil =>
    intro a ha
    simp [Nat.mod_eq_of_lt ha]
  | cons x xs ih =>
    intro a ha
    have hM : 0 < M64 := by norm_num [M64]
    have h1 : (a + f x) % M64 < M64 := Nat.mod_lt _ hM
    calc (x :: xs).foldl (fun t y => (t + f y) % M64) a
        = xs.foldl (fun t y => (t + f y) % M64) ((a + f x) % M64) := rfl
      _ = ((a + f x) % M64 + (xs.map f).sum) % M64 := ih _ h1
      _ = (a + f x + (xs.map f).sum) % M64 := Nat.mod_add_mod _ _ _
      _ = (a + ((x :: xs).map f).sum) % M64 := by
          simp [List.map_cons, List.sum_cons, Nat.add_assoc]

/-- Dropping one element further past a cons. -/
theorem drop_cons_succ {α : Type} :
    ∀ (l : List α) (i : Nat) (b : α) (t : List α),
      l.drop i = b :: t → l.drop (i + 1) = t := by
  intro l
  induction l with
  | nil => intro i b t h; simp at h
  | cons x xs ih =>
    intro i b t h
    cases i with
    | zero =>
      simp at h
      simp [h.2]
    | succ i' => exact ih i' b t h

/-- Dropping to a cons means the index is in range. -/
theorem lt_of_drop_cons {α : Type} :
    ∀ (l : List α) (i : Nat) (b : α) (t : List α),
      l.drop i = b :: t → i < l.length := by
  intro l
  induction l with
  | nil => intro i b t h; simp at h
  | cons x xs ih =>
    intro i b t h
    cases i with
    | zero => simp
    | succ i' => simpa using ih i' b t h

/-- The element where a drop begins. -/
theorem getD_of_drop_cons {α : Type} (d : α) :
    ∀ (l : List α) (i : Nat) (b : α) (t : List α),
      l.drop i = b :: t → l.getD i d = b := by
  intro l
  induction l with
  | nil => intro i b t h; simp at h
  | cons x xs ih =>
    intro i b t h
    cases i with
    | zero => simp at h; simp [h.1]
    | succ i' => simpa using ih i' b t h

/-- Setting below the drop point does not change the drop. -/
theorem drop_set_of_lt {α : Type} :
    ∀ (l : List α) (i j : Nat) (a : α), i < j → (l.set i a).drop j = l.drop j := by
  intro l
  induction l with
  | nil => intro i j a _; simp
  | cons x xs ih =>
    intro i j a hij
    cases i with
    | zero =>
      cases j with
      | zero => omega
      | succ j' => simp
    | succ i' =>
      cases j with
      | zero => omega
      | succ j' =>
        simpa using ih i' j' a (by omega)

/-- Reading back the element just set. -/
theorem getD_set_self {α : Type} (d : α) :
    ∀ (l : List α) (i : Nat) (a : α), i < l.length → (l.set i a).getD i d = a := by
  intro l
  induction l with
  | nil => intro i a h; simp at h
  | cons x xs ih =>
    intro i a h
    cases i with
    | zero => simp
    | succ i' =>
      simp only [List.set, List.getD_cons_succ]
      exact ih i' a (by simpa using h)

/-- Reading any other position after a set. -/
theorem getD_set_of_ne {α : Type} (d : α) :
    ∀ (l : List α) (i j : Nat) (a : α), i ≠ j → (l.set i a).getD j d = l.getD j d := by
  intro l
  induction l with
  | nil => intro i j a _; simp
  | cons x xs ih =>
    intro i j a hij
    cases i with
    | zero =>
      cases j with
      | zero => omega
      | succ j' => simp
    | succ i' =>
      cases j with
      | zero => simp
      | succ j' =>
        simp only [List.set, List.getD_cons_succ]
        exact ih i' j' a (by omega)

/-- The input built from a UTXO by `FromUTXOs`. -/
def utxoToInput (u : UTXO) : Input :=
  { PreviousTxID := u.TxID
    PreviousTxOutIndex := u.Vout
    PreviousTxSatoshis := u.Satoshis
    PreviousTxScript := u.LockingScript
    UnlockingScript := none
    SequenceNumber := DefaultSequenceNumber }

/-- `FromUTXOs` never fails and appends exactly the converted inputs. -/
theorem fromUTXOs_eq :
    ∀ (us : List UTXO) (tx : Transaction),
      FromUTXOs tx us = (none, { tx with Inputs := tx.Inputs ++ us.map utxoToInput }) := by
  intro us
  induction us with
  | nil => intro tx; simp [FromUTXOs]
  | cons u rest ih =>
    intro tx
    show FromUTXOs (addInput tx _) rest = _
    rw [ih]
    simp [addInput, utxoToInput, PreviousTxIDAdd]

/-- The wrapping input total equals the plain sum reduced modulo `2^64`. -/
theorem totalInput_eq_sum_mod (tx : Transaction) :
    TotalInputSatoshis tx = (tx.Inputs.map (·.PreviousTxSatoshis)).sum % M64 := by
  have h := foldl_mod_add (fun i : Input => i.PreviousTxSatoshis) tx.Inputs 0
    (by norm_num [M64])
  simpa [TotalInputSatoshis] using h

/-! Claim theorems. -/

/-- C10: `TotalInputSatoshis` is the sum of the inputs' previous-output
satoshi values in 64-bit unsigned arithmetic, i.e. the plain sum reduced
modulo `2^64`; in particular two inputs of `2^63` satoshis silently wrap
to a total of `0` with no error reported. -/
theorem C10_totalInputSatoshis_wraps :
    (∀ tx : Transaction,
        TotalInputSatoshis tx = (tx.Inputs.map (·.PreviousTxSatoshis)).sum % M64)
    ∧ TotalInputSatoshis
        { Inputs := [⟨[], 0, 2 ^ 63, none, none, 0⟩, ⟨[], 0, 2 ^ 63, none, none, 0⟩]
          Outputs := [] } = 0 := by
  exact ⟨totalInput_eq_sum_mod, by decide⟩

/-- C1 (code bug evidence): inserting an unlocking script at an index equal
to the input count does not return the indexed `"no input at index"` error
the specification promises — the Go guard `tx.Inputs[index] != nil` indexes
the slice first and panics with an index-out-of-range runtime error. -/
theorem C1_insert_out_of_range_panics :
    InsertInputUnlockingScript { Inputs := [dummyInput], Outputs := [] } 1 []
      = Except.error (Failure.panic ("runtime error: index out of range")) := by
  rfl

/-- C6: `FillInput` with no capability fails with the no-unlocker error
before any capability is invoked or any input mutated, and `FillInput`
with a capability and a zero sighash flag set invokes the capability with
the flags defaulted to `AllForkID` and inserts its script at the parameter
index. -/
theorem C6_fillInput_nil_and_default :
    (∀ (tx : Transaction) (params : UnlockerParams),
        FillInput tx none params = Except.error (Failure.err GoError.noUnlocker))
    ∧ (∀ (tx : Transaction) (u : Unlocker) (i : Nat),
        FillInput tx (some u) ⟨i, 0⟩ =
          match u tx ⟨i, AllForkID⟩ with
          | .error e => Except.error (Failure.err e)
          | .ok s => InsertInputUnlockingScript tx i s) := by
  constructor
  · intro tx params
    rfl
  · intro tx u i
    rfl

/-- C7: `From` with two hex texts that decode appends exactly one input whose
previous transaction id, output index, satoshi value and locking script are
the decoded values and whose sequence number is the default finalized
`0xFFFFFFFF`; a locking-script decoding failure, or an id decoding failure,
returns that decoding error and appends nothing. -/
theorem C7_from_roundtrip :
    ∀ (tx : Transaction) (prevTxID lsHex : String) (vout satoshis : Nat),
      (∀ (s b : List Nat), NewFromHexString lsHex = some s → hexDecode prevTxID = some b →
        From tx prevTxID vout lsHex satoshis =
          (none, { tx with Inputs := tx.Inputs ++
            [{ PreviousTxID := b
               PreviousTxOutIndex := vout
               PreviousTxSatoshis := satoshis
               PreviousTxScript := some s
               UnlockingScript := none
               SequenceNumber := 0xFFFFFFFF }] }))
      ∧ (NewFromHexString lsHex = none →
          From tx prevTxID vout lsHex satoshis = (some (GoError.invalidHex lsHex), tx))
      ∧ (∀ s : List Nat, NewFromHexString lsHex = some s → hexDecode prevTxID = none →
          From tx prevTxID vout lsHex satoshis = (some (GoError.invalidHex prevTxID), tx)) := by
  intro tx prevTxID lsHex vout satoshis
  refine ⟨?_, ?_, ?_⟩
  · intro s b hs hb
    simp only [From, hs, hb]
    rw [fromUTXOs_eq]
    simp [utxoToInput, DefaultSequenceNumber]
  · intro hs
    simp only [From, hs]
  · intro s hs hb
    simp only [From, hs, hb]

/-- Witness for C7 at concrete hex strings. -/
theorem C7_witness :
    NewFromHexString ("ab") = some [171] ∧ hexDecode ("00ff") = some [0, 255]
    ∧ From { Inputs := [], Outputs := [] } ("00ff") 3 ("ab") 42 =
        (none, { Inputs := [{ PreviousTxID := [0, 255]
                              PreviousTxOutIndex := 3
                              PreviousTxSatoshis := 42
                              PreviousTxScript := some [171]
                              UnlockingScript := none
                              SequenceNumber := 0xFFFFFFFF }]
                 Outputs := [] }) := by
  refine ⟨rfl, rfl, ?_⟩
  have h := (C7_from_roundtrip { Inputs := [], Outputs := [] } ("00ff") ("ab") 3 42).1
    [171] [0, 255] rfl rfl
  simpa using h

/-- C3: when the initial deficit is nonzero and the source signals exhaustion
on its first call, `Fund` fails with `insufficientFunds` (not with the
`noUTXO` exhaustion sentinel) after that single call; and whenever the
deficit has reached zero the funding loop succeeds without consulting the
source at all, so exhaustion alone never fails a funded transaction. -/
theorem C3_fund_exhaustion_vs_insufficiency :
    (∀ (fq : FeeEstimator) (source : UTXOSource) (tx : Transaction) (d₀ fuel : Nat),
        estimateDeficit fq tx = .ok d₀ → d₀ ≠ 0 →
        source 0 d₀ = .error GoError.noUTXO →
        Fund (fuel + 1) fq source tx = (.fail GoError.insufficientFunds, tx, 1))
    ∧ (∀ (fq : FeeEstimator) (source : UTXOSource) (fuel : Nat) (tx : Transaction)
        (calls : Nat),
        fundLoop fq source fuel tx 0 calls = (.ok, tx, calls))
    ∧ (∀ (fq : FeeEstimator) (source : UTXOSource) (fuel : Nat) (tx : Transaction),
        estimateDeficit fq tx = .ok 0 → Fund fuel fq source tx = (.ok, tx, 0)) := by
  refine ⟨?_, ?_, ?_⟩
  · intro fq source tx d₀ fuel hest hd0 hsrc
    simp [Fund, hest, fundLoop, hd0, hsrc]
  · intro fq source fuel tx calls
    cases fuel <;> simp [fundLoop]
  · intro fq source fuel tx hest
    cases fuel <;> simp [Fund, hest, fundLoop]

/-- Witness for C3 at a concrete transaction, fee policy and source. -/
theorem C3_witness :
    Fund 1 (fun _ => .ok 0)
        (fun _ _ => .error GoError.noUTXO)
        { Inputs := [], Outputs := [⟨50, none⟩] } =
      (.fail GoError.insufficientFunds, { Inputs := [], Outputs := [⟨50, none⟩] }, 1)
    ∧ fundLoop (fun _ => .ok 0) (fun _ _ => .error GoError.noUTXO) 7
        { Inputs := [], Outputs := [⟨50, none⟩] } 0 4 =
      (.ok, { Inputs := [], Outputs := [⟨50, none⟩] }, 4) := by
  constructor
  · exact C3_fund_exhaustion_vs_insufficiency.1 _ _ _ 50 0 rfl (by decide) rfl
  · exact C3_fund_exhaustion_vs_insufficiency.2.1 _ _ 7 _ 4

/-- C4: a non-exhaustion source error aborts the funding loop immediately:
the loop returns exactly that error, leaves the transaction exactly as it
was when the failing call was made (so inputs appended by earlier
iterations remain and nothing from the failing call is added), and makes no
further source calls; in particular a first-call failure surfaces from
`Fund` itself after exactly one call. -/
theorem C4_fund_propagates_source_error :
    (∀ (fq : FeeEstimator) (source : UTXOSource) (fuel : Nat) (tx : Transaction)
        (deficit calls : Nat) (e : GoError),
        deficit ≠ 0 → source calls deficit = .error e → e ≠ GoError.noUTXO →
        fundLoop fq source (fuel + 1) tx deficit calls = (.fail e, tx, calls + 1))
    ∧ (∀ (fq : FeeEstimator) (source : UTXOSource) (fuel : Nat) (tx : Transaction)
        (d₀ : Nat) (e : GoError),
        estimateDeficit fq tx = .ok d₀ → d₀ ≠ 0 → source 0 d₀ = .error e →
        e ≠ GoError.noUTXO →
        Fund (fuel + 1) fq source tx = (.fail e, tx, 1)) := by
  constructor
  · intro fq source fuel tx deficit calls e hd hsrc hne
    simp [fundLoop, hd, hsrc, hne]
  · intro fq source fuel tx d₀ e hest hd0 hsrc hne
    simp [Fund, hest, fundLoop, hd0, hsrc, hne]

/-- Witness for C4 at a concrete transaction, fee policy and failing source. -/
theorem C4_witness :
    fundLoop (fun _ => .ok 0) (fun _ _ => .error (GoError.external 9)) 3
        { Inputs := [dummyInput], Outputs := [] } 5 2 =
      (.fail (GoError.external 9), { Inputs := [dummyInput], Outputs := [] }, 3)
    ∧ Fund 1 (fun _ => .ok 0) (fun _ _ => .error (GoError.external 9))
        { Inputs := [], Outputs := [⟨50, none⟩] } =
      (.fail (GoError.external 9), { Inputs := [], Outputs := [⟨50, none⟩] }, 1) := by
  constructor
  · exact C4_fund_propagates_source_error.1 _ _ 2 _ 5 2 _ (by decide) rfl (by decide)
  · exact C4_fund_propagates_source_error.2 _ _ 0 _ 50 _ rfl (by decide) rfl (by decide)

/-- The funding loop only ever appends inputs and never touches outputs,
whatever the source, fee policy and fuel do. -/
theorem fundLoop_frame (fq : FeeEstimator) (source : UTXOSource) :
    ∀ (fuel : Nat) (tx : Transaction) (deficit calls : Nat),
      (fundLoop fq source fuel tx deficit calls).2.1.Outputs = tx.Outputs
      ∧ ∃ new, (fundLoop fq source fuel tx deficit calls).2.1.Inputs = tx.Inputs ++ new := by
  intro fuel
  induction fuel with
  | zero =>
    intro tx deficit calls
    by_cases hd : deficit = 0 <;> simp [fundLoop, hd]
  | succ fuel' ih =>
    intro tx deficit calls
    by_cases hd : deficit = 0
    · simp [fundLoop, hd]
    · cases hsrc : source calls deficit with
      | error e =>
        by_cases he : e = GoError.noUTXO <;> simp [fundLoop, hd, hsrc, he]
      | ok utxos =>
        cases hest : estimateDeficit fq { tx with Inputs := tx.Inputs ++ utxos.map utxoToInput } with
        | error e =>
          simp [fundLoop, hd, hsrc, fromUTXOs_eq, hest]
        | ok d' =>
          obtain ⟨hout, new', hnew⟩ :=
            ih { tx with Inputs := tx.Inputs ++ utxos.map utxoToInput } d' (calls + 1)
          refine ⟨?_, utxos.map utxoToInput ++ new', ?_⟩
          · simp only [fundLoop, hd, if_false, hsrc, fromUTXOs_eq, hest]
            simpa using hout
          · simp only [fundLoop, hd, if_false, hsrc, fromUTXOs_eq, hest]
            rw [hnew]
            simp

/-- C9: `Fund` never changes the output sequence and its only structural
effect on the inputs is appending new ones at the end, preserving all
previously present inputs and their fields; likewise `FromUTXOs` appends
exactly the converted inputs. -/
theorem C9_fund_frame :
    (∀ (tx : Transaction) (us : List UTXO),
        (FromUTXOs tx us).2.Outputs = tx.Outputs
        ∧ (FromUTXOs tx us).2.Inputs = tx.Inputs ++ us.map utxoToInput)
    ∧ (∀ (fuel : Nat) (fq : FeeEstimator) (source : UTXOSource) (tx : Transaction),
        (Fund fuel fq source tx).2.1.Outputs = tx.Outputs
        ∧ ∃ new, (Fund fuel fq source tx).2.1.Inputs = tx.Inputs ++ new) := by
  constructor
  · intro tx us
    rw [fromUTXOs_eq]
    simp
  · intro fuel fq source tx
    cases hest : estimateDeficit fq tx with
    | error e => simp [Fund, hest]
    | ok d =>
      have h := fundLoop_frame fq source fuel tx d 0
      simpa [Fund, hest] using h

/-- Unrolling the outpoint buffer fold into a flattened map. -/
theorem foldl_outpoint_buf :
    ∀ (l : List Input) (init : List Nat),
      l.foldl (fun buf i => (buf ++ i.PreviousTxID.reverse) ++ le32 i.PreviousTxOutIndex) init
        = init ++ (l.map (fun i => i.PreviousTxID.reverse ++ le32 i.PreviousTxOutIndex)).flatten := by
  intro l
  induction l with
  | nil => intro init; simp
  | cons x xs ih =>
    intro init
    show xs.foldl _ ((init ++ x.PreviousTxID.reverse) ++ le32 x.PreviousTxOutIndex) = _
    rw [ih]
    simp [List.append_assoc]

/-- Unrolling the sequence buffer fold into a flattened map. -/
theorem foldl_sequence_buf :
    ∀ (l : List Input) (init : List Nat),
      l.foldl (fun buf i => buf ++ le32 i.SequenceNumber) init
        = init ++ (l.map (fun i => le32 i.SequenceNumber)).flatten := by
  intro l
  induction l with
  | nil => intro init; simp
  | cons x xs ih =>
    intro init
    show xs.foldl _ (init ++ le32 x.SequenceNumber) = _
    rw [ih]
    simp [List.append_assoc]

/-- C8: `PreviousOutHash` is the double-SHA256 of the in-order concatenation
of each input's reversed previous transaction id followed by its 4-byte
little-endian output index, `SequenceHash` is the double-SHA256 of the
in-order concatenation of each input's 4-byte little-endian sequence
number, and both depend only on the input list, so transactions with equal
input lists have identical digests. -/
theorem C8_preimage_hashes :
    (∀ tx : Transaction,
        PreviousOutHash tx =
          Sha256d ((tx.Inputs.map
            (fun i => i.PreviousTxID.reverse ++ le32 i.PreviousTxOutIndex)).flatten)
        ∧ SequenceHash tx =
          Sha256d ((tx.Inputs.map (fun i => le32 i.SequenceNumber)).flatten))
    ∧ (∀ tx₁ tx₂ : Transaction, tx₁.Inputs = tx₂.Inputs →
        PreviousOutHash tx₁ = PreviousOutHash tx₂
        ∧ SequenceHash tx₁ = SequenceHash tx₂) := by
  have hp : ∀ tx : Transaction,
      PreviousOutHash tx =
        Sha256d ((tx.Inputs.map
          (fun i => i.PreviousTxID.reverse ++ le32 i.PreviousTxOutIndex)).flatten) := by
    intro tx
    rw [PreviousOutHash, foldl_outpoint_buf]
    simp
  have hs : ∀ tx : Transaction,
      SequenceHash tx =
        Sha256d ((tx.Inputs.map (fun i => le32 i.SequenceNumber)).flatten) := by
    intro tx
    rw [SequenceHash, foldl_sequence_buf]
    simp
  refine ⟨fun tx => ⟨hp tx, hs tx⟩, fun tx₁ tx₂ h => ⟨?_, ?_⟩⟩
  · rw [hp tx₁, hp tx₂, h]
  · rw [hs tx₁, hs tx₂, h]

/-- Witness for C8: two transactions with the same single input but
different outputs have identical outpoint and sequence digests. -/
theorem C8_witness :
    PreviousOutHash { Inputs := [dummyInput], Outputs := [] }
      = PreviousOutHash { Inputs := [dummyInput], Outputs := [⟨5, none⟩] }
    ∧ SequenceHash { Inputs := [dummyInput], Outputs := [] }
      = SequenceHash { Inputs := [dummyInput], Outputs := [⟨5, none⟩] } :=
  C8_preimage_hashes.2 _ _ rfl

/-- C2 (amended, counterexample `C2_counterexample`): for the claimed
conclusion to hold the fee estimate must also be unchanged by appending
the returned UTXOs; with that extra hypothesis (and no 64-bit wrap of the
input total), a source whose first call returns UTXOs summing exactly to
the passed deficit makes `Fund` succeed after exactly one source call,
with a zero recomputed deficit. -/
theorem C2_fund_exact_cover (fq : FeeEstimator) (source : UTXOSource)
    (tx : Transaction) (fuel d₀ : Nat) (us : List UTXO)
    (hest : estimateDeficit fq tx = .ok d₀)
    (hd0 : d₀ ≠ 0)
    (hsrc : source 0 d₀ = .ok us)
    (hsum : (us.map (·.Satoshis)).sum = d₀)
    (hfee : fq { tx with Inputs := tx.Inputs ++ us.map utxoToInput } = fq tx)
    (hnw : TotalInputSatoshis tx + d₀ < M64) :
    Fund (fuel + 1) fq source tx =
      (.ok, { tx with Inputs := tx.Inputs ++ us.map utxoToInput }, 1)
    ∧ estimateDeficit fq { tx with Inputs := tx.Inputs ++ us.map utxoToInput } = .ok 0 := by
  have hestOrig := hest
  cases hfq : fq tx with
  | error e => simp [estimateDeficit, hfq] at hest
  | ok fee =>
    simp only [estimateDeficit, hfq] at hest
    by_cases hc : TotalOutputSatoshis tx + fee < TotalInputSatoshis tx
    · rw [if_pos hc] at hest
      simp at hest
      omega
    · rw [if_neg hc] at hest
      simp at hest
      have hle : TotalInputSatoshis tx ≤ TotalOutputSatoshis tx + fee :=
        Nat.le_of_not_lt hc
      have hIn' : TotalInputSatoshis
          { tx with Inputs := tx.Inputs ++ us.map utxoToInput }
          = TotalInputSatoshis tx + d₀ := by
        rw [totalInput_eq_sum_mod, totalInput_eq_sum_mod tx] at *
        simp only [List.map_append, List.sum_append]
        have hmap : ((us.map utxoToInput).map (fun i => i.PreviousTxSatoshis)).sum
            = (us.map (fun u => u.Satoshis)).sum := by
          simp only [List.map_map]
          rfl
        rw [hmap, hsum]
        have hd0lt : d₀ < M64 := by omega
        rw [Nat.add_mod, Nat.mod_eq_of_lt hd0lt]
        exact Nat.mod_eq_of_lt hnw
      have hOut' : TotalOutputSatoshis
          { tx with Inputs := tx.Inputs ++ us.map utxoToInput }
          = TotalOutputSatoshis tx := rfl
      have hIn'' : TotalInputSatoshis
          { tx with Inputs := tx.Inputs ++ us.map utxoToInput }
          = TotalOutputSatoshis tx + fee := by omega
      have hdef' : estimateDeficit fq
          { tx with Inputs := tx.Inputs ++ us.map utxoToInput } = .ok 0 := by
        rw [estimateDeficit, hfee, hfq, hOut', hIn'']
        simp
      refine ⟨?_, hdef'⟩
      have hrun : Fund (fuel + 1) fq source tx
          = fundLoop fq source fuel
              { tx with Inputs := tx.Inputs ++ us.map utxoToInput } 0 1 := by
        simp [Fund, hestOrig, fundLoop, hd0, hsrc, fromUTXOs_eq, hdef']
      rw [hrun]
      cases fuel <;> simp [fundLoop]

/-- C2 counterexample: a fee policy whose estimate grows with the number of
inputs (here 10 satoshis per input).  The source's first call returns
UTXOs summing exactly to the passed deficit (100), yet `Fund` does not
succeed after one call: the recomputed deficit is 10, a second call hits
exhaustion, and `Fund` fails with `insufficientFunds` after two calls. -/
theorem C2_counterexample :
    estimateDeficit (fun t => .ok (10 * t.Inputs.length))
        { Inputs := [], Outputs := [⟨100, none⟩] } = .ok 100
    ∧ (fun (n : Nat) (_ : Nat) =>
        if n = 0 then Except.ok [(⟨[], 0, 100, none⟩ : UTXO)]
        else Except.error GoError.noUTXO) 0 100 = .ok [⟨[], 0, 100, none⟩]
    ∧ ([(⟨[], 0, 100, none⟩ : UTXO)].map (·.Satoshis)).sum = 100
    ∧ (Fund 5 (fun t => .ok (10 * t.Inputs.length))
        (fun n _ => if n = 0 then .ok [⟨[], 0, 100, none⟩]
                    else .error GoError.noUTXO)
        { Inputs := [], Outputs := [⟨100, none⟩] }).1
        = .fail GoError.insufficientFunds
    ∧ (Fund 5 (fun t => .ok (10 * t.Inputs.length))
        (fun n _ => if n = 0 then .ok [⟨[], 0, 100, none⟩]
                    else .error GoError.noUTXO)
        { Inputs := [], Outputs := [⟨100, none⟩] }).2.2 = 2 :=
  ⟨rfl, rfl, rfl, rfl, rfl⟩

/-- Witness for the amended C2 at a constant fee policy. -/
theorem C2_witness :
    Fund 1 (fun _ => .ok 10)
        (fun n _ => if n = 0 then .ok [⟨[], 0, 100, none⟩]
                    else .error GoError.noUTXO)
        { Inputs := [], Outputs := [⟨90, none⟩] } =
      (.ok, { Inputs := [⟨[], 0, 100, none, none, 4294967295⟩]
              Outputs := [⟨90, none⟩] }, 1)
    ∧ estimateDeficit (fun _ => .ok 10)
        { Inputs := [⟨[], 0, 100, none, none, 4294967295⟩]
          Outputs := [⟨90, none⟩] } = .ok 0 := by
  have h := C2_fund_exact_cover (fun _ => .ok 10)
    (fun n _ => if n = 0 then .ok [⟨[], 0, 100, none⟩]
                else .error GoError.noUTXO)
    { Inputs := [], Outputs := [⟨90, none⟩] } 0 100 [⟨[], 0, 100, none⟩]
    rfl (by decide) rfl rfl rfl (by decide)
  simpa using h

/-- Indexing with a default at an in-range position is plain indexing. -/
theorem getD_eq_get {α : Type} (d : α) :
    ∀ (l : List α) (i : Nat) (h : i < l.length), l.getD i d = l.get ⟨i, h⟩ := by
  intro l
  induction l with
  | nil => intro i h; simp at h
  | cons x xs ih =>
    intro i h
    cases i with
    | zero => simp
    | succ i' =>
      simp only [List.getD_cons_succ]
      exact ih i' (by simpa using h)

/-- `FillInput` with a supplied capability and the explicit `AllForkID`
flags reduces to invoking the capability and inserting its script. -/
theorem FillInput_allForkID (tx : Transaction) (u : Unlocker) (i : Nat) :
    FillInput tx (some u) ⟨i, AllForkID⟩ =
      match u tx ⟨i, AllForkID⟩ with
      | .error e => Except.error (Failure.err e)
      | .ok s => InsertInputUnlockingScript tx i s := rfl

/-- Rewrite of position `i` of an input list with an unlocking script. -/
def fillAt (l : List Input) (i : Nat) (s : Script) : List Input :=
  l.set i ({ l.getD i dummyInput with UnlockingScript := some s })

/-- Filling a position does not change the list length. -/
theorem fillAt_length (l : List Input) (i : Nat) (s : Script) :
    (fillAt l i s).length = l.length := by
  simp [fillAt]

/-- Filling a position below a drop point does not change the drop. -/
theorem fillAt_drop (l : List Input) (i j : Nat) (s : Script) (h : i < j) :
    (fillAt l i s).drop j = l.drop j :=
  drop_set_of_lt l i j _ h

/-- Filling one position does not change the others. -/
theorem fillAt_getD_ne (l : List Input) (i j : Nat) (s : Script) (h : i ≠ j) :
    (fillAt l i s).getD j dummyInput = l.getD j dummyInput :=
  getD_set_of_ne dummyInput l i j _ h

/-- Reading back the filled position. -/
theorem fillAt_getD_self (l : List Input) (i : Nat) (s : Script)
    (h : i < l.length) :
    (fillAt l i s).getD i dummyInput
      = { l.getD i dummyInput with UnlockingScript := some s } :=
  getD_set_self dummyInput l i _ h

/-- Inversion of a successful unlocking-script insertion. -/
theorem InsertInputUnlockingScript_ok {tx : Transaction} {i : Nat} {s : Script}
    {tx' : Transaction} (h : InsertInputUnlockingScript tx i s = .ok tx') :
    i < tx.Inputs.length ∧ tx' = { tx with Inputs := fillAt tx.Inputs i s } := by
  rw [InsertInputUnlockingScript] at h
  split at h
  case isTrue hlt =>
    refine ⟨hlt, ?_⟩
    injection h with h'
    rw [← h', fillAt, getD_eq_get dummyInput tx.Inputs i hlt]
  case isFalse hlt => simp at h

/-- Invariant of the `FillAllInputs` walk, generalized over the start index:
given that `rest` is the suffix of the inputs from index `i`, the walk
keeps outputs, input count and all positions below `i`; its resolver trace
is a prefix of the suffix's previous locking scripts in order; on success
the trace covers every input of the suffix and each of them has been
rewritten only in its unlocking-script slot; on failure there is a failing
position `k` such that resolution was requested exactly for positions up
to `k`, positions from `k` on are untouched, positions before `k` are
filled, and the reported failure is the resolver's or the filler's error
at `k`. -/
theorem FillAllInputsAux_spec (ug : UnlockerGetter) :
    ∀ (rest : List Input) (i : Nat) (tx : Transaction),
      tx.Inputs.drop i = rest →
      (FillAllInputsAux ug tx i rest).2.1.Outputs = tx.Outputs
      ∧ (FillAllInputsAux ug tx i rest).2.1.Inputs.length = tx.Inputs.length
      ∧ (∀ j, j < i →
          (FillAllInputsAux ug tx i rest).2.1.Inputs.getD j dummyInput
            = tx.Inputs.getD j dummyInput)
      ∧ (FillAllInputsAux ug tx i rest).2.2 <+: rest.map (fun a => a.PreviousTxScript)
      ∧ ((FillAllInputsAux ug tx i rest).1 = none →
          (FillAllInputsAux ug tx i rest).2.2 = rest.map (fun a => a.PreviousTxScript)
          ∧ ∀ j, j < rest.length → ∃ s,
              (FillAllInputsAux ug tx i rest).2.1.Inputs.getD (i + j) dummyInput
                = { rest.getD j dummyInput with UnlockingScript := some s })
      ∧ (∀ f, (FillAllInputsAux ug tx i rest).1 = some f →
          ∃ k, k < rest.length
          ∧ (FillAllInputsAux ug tx i rest).2.2
              = (rest.take (k + 1)).map (fun a => a.PreviousTxScript)
          ∧ (FillAllInputsAux ug tx i rest).2.1.Inputs.drop (i + k) = rest.drop k
          ∧ (∀ j, j < k → ∃ s,
              (FillAllInputsAux ug tx i rest).2.1.Inputs.getD (i + j) dummyInput
                = { rest.getD j dummyInput with UnlockingScript := some s })
          ∧ (match ug ((rest.getD k dummyInput).PreviousTxScript) with
             | .error e => f = Failure.err e
             | .ok u => FillInput (FillAllInputsAux ug tx i rest).2.1 (some u)
                          ⟨i + k, AllForkID⟩ = .error f)) := by
  intro rest
  induction rest with
  | nil =>
    intro i tx hdrop
    refine ⟨rfl, rfl, fun j _ => rfl, ⟨[], rfl⟩, ?_, ?_⟩
    · intro _
      exact ⟨rfl, fun j hj => absurd hj (by simp)⟩
    · intro f hf
      exact Option.noConfusion hf
  | cons input rest' ih =>
    intro i tx hdrop
    have hi : i < tx.Inputs.length := lt_of_drop_cons _ _ _ _ hdrop
    have hgeti : tx.Inputs.getD i dummyInput = input :=
      getD_of_drop_cons _ _ _ _ _ hdrop
    have hdropSucc : tx.Inputs.drop (i + 1) = rest' := drop_cons_succ _ _ _ _ hdrop
    cases hug : ug input.PreviousTxScript with
    | error e =>
      have h1 : (FillAllInputsAux ug tx i (input :: rest')).1
          = some (Failure.err e) := by
        simp [FillAllInputsAux, hug]
      have h2 : (FillAllInputsAux ug tx i (input :: rest')).2.1 = tx := by
        simp [FillAllInputsAux, hug]
      have h3 : (FillAllInputsAux ug tx i (input :: rest')).2.2
          = [input.PreviousTxScript] := by
        simp [FillAllInputsAux, hug]
      refine ⟨by rw [h2], by rw [h2], fun j _ => by rw [h2], ?_, ?_, ?_⟩
      · rw [h3]
        exact ⟨rest'.map (fun a => a.PreviousTxScript), by simp⟩
      · intro h
        rw [h1] at h
        exact Option.noConfusion h
      · intro f hf
        rw [h1] at hf
        cases hf
        refine ⟨0, by simp, by rw [h3]; simp, ?_,
          fun j hj => absurd hj (Nat.not_lt_zero j), ?_⟩
        · rw [h2]
          simpa using hdrop
        · simp only [List.getD_cons_zero]
          rw [hug]
    | ok u =>
      cases hfill : FillInput tx (some u) ⟨i, AllForkID⟩ with
      | error f₀ =>
        have h1 : (FillAllInputsAux ug tx i (input :: rest')).1 = some f₀ := by
          simp [FillAllInputsAux, hug, hfill]
        have h2 : (FillAllInputsAux ug tx i (input :: rest')).2.1 = tx := by
          simp [FillAllInputsAux, hug, hfill]
        have h3 : (FillAllInputsAux ug tx i (input :: rest')).2.2
            = [input.PreviousTxScript] := by
          simp [FillAllInputsAux, hug, hfill]
        refine ⟨by rw [h2], by rw [h2], fun j _ => by rw [h2], ?_, ?_, ?_⟩
        · rw [h3]
          exact ⟨rest'.map (fun a => a.PreviousTxScript), by simp⟩
        · intro h
          rw [h1] at h
          exact Option.noConfusion h
        · intro f hf
          rw [h1] at hf
          cases hf
          refine ⟨0, by simp, by rw [h3]; simp, ?_,
            fun j hj => absurd hj (Nat.not_lt_zero j), ?_⟩
          · rw [h2]
            simpa using hdrop
          · simp only [List.getD_cons_zero]
            rw [hug, h2]
            simpa using hfill
      | ok tx₁ =>
        have hfill' := hfill
        rw [FillInput_allForkID] at hfill'
        cases hus : u tx ⟨i, AllForkID⟩ with
        | error e0 =>
          simp [hus] at hfill'
        | ok s0 =>
          rw [hus] at hfill'
          have hIns : InsertInputUnlockingScript tx i s0 = .ok tx₁ := hfill'
          obtain ⟨hlt, htx₁⟩ := InsertInputUnlockingScript_ok hIns
          have hInputs₁ : tx₁.Inputs = fillAt tx.Inputs i s0 := by rw [htx₁]
          have hdrop₁ : tx₁.Inputs.drop (i + 1) = rest' := by
            rw [hInputs₁, fillAt_drop tx.Inputs i (i + 1) s0 (by omega)]
            exact hdropSucc
          obtain ⟨ihOut, ihLen, ihPre, ihTr, ihNone, ihSome⟩ := ih (i + 1) tx₁ hdrop₁
          have hlen₁ : tx₁.Inputs.length = tx.Inputs.length := by
            rw [hInputs₁, fillAt_length]
          have hout₁ : tx₁.Outputs = tx.Outputs := by rw [htx₁]
          have hpre₁ : ∀ j, j < i →
              tx₁.Inputs.getD j dummyInput = tx.Inputs.getD j dummyInput := by
            intro j hj
            rw [hInputs₁]
            exact fillAt_getD_ne tx.Inputs i j s0 (by omega)
          have hat₁ : tx₁.Inputs.getD i dummyInput
              = { input with UnlockingScript := some s0 } := by
            rw [hInputs₁, fillAt_getD_self tx.Inputs i s0 hlt, hgeti]
          have h1 : (FillAllInputsAux ug tx i (input :: rest')).1
              = (FillAllInputsAux ug tx₁ (i + 1) rest').1 := by
            simp [FillAllInputsAux, hug, hfill]
          have h2 : (FillAllInputsAux ug tx i (input :: rest')).2.1
              = (FillAllInputsAux ug tx₁ (i + 1) rest').2.1 := by
            simp [FillAllInputsAux, hug, hfill]
          have h3 : (FillAllInputsAux ug tx i (input :: rest')).2.2
              = input.PreviousTxScript :: (FillAllInputsAux ug tx₁ (i + 1) rest').2.2 := by
            simp [FillAllInputsAux, hug, hfill]
          refine ⟨by rw [h2, ihOut, hout₁], by rw [h2, ihLen, hlen₁], ?_, ?_, ?_, ?_⟩
          · intro j hj
            rw [h2, ihPre j (by omega), hpre₁ j hj]
          · rw [h3]
            obtain ⟨t, ht⟩ := ihTr
            refine ⟨t, ?_⟩
            simp only [List.cons_append, List.map_cons]
            rw [ht]
          · intro h
            rw [h1] at h
            obtain ⟨htr, hfl⟩ := ihNone h
            refine ⟨by rw [h3, htr, List.map_cons], ?_⟩
            intro j hj
            rw [h2]
            cases j with
            | zero =>
              refine ⟨s0, ?_⟩
              simpa using (ihPre i (by omega)).trans hat₁
            | succ j' =>
              obtain ⟨s, hs⟩ := hfl j' (by simpa using hj)
              refine ⟨s, ?_⟩
              have hidx : i + (j' + 1) = (i + 1) + j' := by omega
              rw [hidx, List.getD_cons_succ]
              exact hs
          · intro f hf
            rw [h1] at hf
            obtain ⟨k', hk', htr', hdropk', hfills', hmatch'⟩ := ihSome f hf
            refine ⟨k' + 1, by simp only [List.length_cons]; omega, ?_, ?_, ?_, ?_⟩
            · rw [h3, htr', List.take_succ_cons, List.map_cons]
            · have hidx : i + (k' + 1) = (i + 1) + k' := by omega
              rw [h2, hidx, List.drop_succ_cons]
              exact hdropk'
            · intro j hj
              rw [h2]
              cases j with
              | zero =>
                refine ⟨s0, ?_⟩
                simpa using (ihPre i (by omega)).trans hat₁
              | succ j' =>
                obtain ⟨s, hs⟩ := hfills' j' (by omega)
                refine ⟨s, ?_⟩
                have hidx : i + (j' + 1) = (i + 1) + j' := by omega
                rw [hidx, List.getD_cons_succ]
                exact hs
            · have hidx : i + (k' + 1) = (i + 1) + k' := by omega
              rw [List.getD_cons_succ, h2, hidx]
              exact hmatch'

/-- C5: `FillAllInputs` walks the inputs in ascending index order, requesting
exactly one unlocking capability per input with that input's own previous
locking script (the resolver trace is a prefix of the per-input locking
scripts, and covers all of them exactly once on success), and fills each
input's unlocking-script slot; on the first resolution or signing failure
it returns that error without processing any later input, keeping the
unlocking scripts already stored on earlier inputs and leaving outputs and
the input count untouched. -/
theorem C5_fillAllInputs_in_order (ug : UnlockerGetter) (tx : Transaction) :
    (FillAllInputs ug tx).2.1.Outputs = tx.Outputs
    ∧ (FillAllInputs ug tx).2.1.Inputs.length = tx.Inputs.length
    ∧ (FillAllInputs ug tx).2.2 <+: tx.Inputs.map (fun a => a.PreviousTxScript)
    ∧ ((FillAllInputs ug tx).1 = none →
        (FillAllInputs ug tx).2.2 = tx.Inputs.map (fun a => a.PreviousTxScript)
        ∧ ∀ j, j < tx.Inputs.length → ∃ s,
            (FillAllInputs ug tx).2.1.Inputs.getD j dummyInput
              = { tx.Inputs.getD j dummyInput with UnlockingScript := some s })
    ∧ (∀ f, (FillAllInputs ug tx).1 = some f →
        ∃ k, k < tx.Inputs.length
        ∧ (FillAllInputs ug tx).2.2
            = (tx.Inputs.take (k + 1)).map (fun a => a.PreviousTxScript)
        ∧ (FillAllInputs ug tx).2.1.Inputs.drop k = tx.Inputs.drop k
        ∧ (∀ j, j < k → ∃ s,
            (FillAllInputs ug tx).2.1.Inputs.getD j dummyInput
              = { tx.Inputs.getD j dummyInput with UnlockingScript := some s })
        ∧ (match ug ((tx.Inputs.getD k dummyInput).PreviousTxScript) with
           | .error e => f = Failure.err e
           | .ok u => FillInput (FillAllInputs ug tx).2.1 (some u)
                        ⟨k, AllForkID⟩ = .error f)) := by
  obtain ⟨h1, h2, _h3, h4, h5, h6⟩ :=
    FillAllInputsAux_spec ug tx.Inputs 0 tx (by simp)
  refine ⟨h1, h2, h4, ?_, ?_⟩
  · intro hnone
    obtain ⟨ha, hb⟩ := h5 hnone
    refine ⟨ha, fun j hj => ?_⟩
    obtain ⟨s, hs⟩ := hb j hj
    exact ⟨s, by simpa using hs⟩
  · intro f hf
    obtain ⟨k, hk, ha, hb, hc, hd⟩ := h6 f hf
    refine ⟨k, hk, ha, by simpa using hb, fun j hj => ?_, ?_⟩
    · obtain ⟨s, hs⟩ := hc j hj
      exact ⟨s, by simpa using hs⟩
    · simpa only [Nat.zero_add] using hd

/-- Witness for C5: a resolver that always succeeds, on a two-input
transaction, is consulted for both previous locking scripts in order and
both unlocking slots get populated. -/
theorem C5_witness :
    (FillAllInputs
        (fun _ => Except.ok (fun _ p => Except.ok [p.InputIdx]))
        { Inputs := [⟨[1], 0, 10, some [7], none, 1⟩, ⟨[2], 1, 20, some [8], none, 1⟩]
          Outputs := [] }).2.2
      = [some [7], some [8]]
    ∧ ∃ s, ((FillAllInputs
        (fun _ => Except.ok (fun _ p => Except.ok [p.InputIdx]))
        { Inputs := [⟨[1], 0, 10, some [7], none, 1⟩, ⟨[2], 1, 20, some [8], none, 1⟩]
          Outputs := [] }).2.1.Inputs.getD 0 dummyInput)
      = { ({ Inputs := [⟨[1], 0, 10, some [7], none, 1⟩, ⟨[2], 1, 20, some [8], none, 1⟩]
             Outputs := [] } : Transaction).Inputs.getD 0 dummyInput
          with UnlockingScript := some s } := by
  have h := C5_fillAllInputs_in_order
    (fun _ => Except.ok (fun _ p => Except.ok [p.InputIdx]))
    { Inputs := [⟨[1], 0, 10, some [7], none, 1⟩, ⟨[2], 1, 20, some [8], none, 1⟩]
      Outputs := [] }
  obtain ⟨ha, hb⟩ := h.2.2.2.1 rfl
  exact ⟨ha, hb 0 (by simp)⟩

end GoSdk
